import Mathlib

/-!
Verification of the meal-planner local-persistence layer (storage module)
and its nutrition derivation functions.

The JavaScript source is embedded shallowly:
* the browser key-value store for one collection is an `Option` value
  (`none` = key absent, `some v` = key present holding `v`);
* JavaScript objects used as string-keyed records (the meal plan and its
  per-day slot records) are association lists `List (String × _)` whose
  order models JavaScript property insertion order, with `jsSet`
  reproducing JavaScript assignment (update in place, or append for a
  fresh key);
* `Date.now()` is an explicit `now : Nat` argument;
* JavaScript numbers carried by recipes (nutrient and ingredient
  amounts) are rationals, and `Math.round` is `jsRound`;
* each storage operation returns its result together with the new store
  contents; an operation that never calls `saveToStorage` returns the
  store argument unchanged.
-/

namespace MealPlannerVerif

/-- JavaScript `Math.round` on a rational: floor of `q + 1/2`. -/
def jsRound (q : ℚ) : ℤ := ⌊q + 1/2⌋

/-- Character-level lowercase conversion, modelling `String.prototype.toLowerCase`. -/
def lowerStr (s : String) : String := ⟨s.data.map Char.toLower⟩

/-- Whitespace trimming at both ends, modelling `String.prototype.trim`. -/
def trimStr (s : String) : String :=
  ⟨((s.data.dropWhile Char.isWhitespace).reverse.dropWhile Char.isWhitespace).reverse⟩

/-- Contiguous-sublist test on character lists. -/
def isSubstr (pat : List Char) : List Char → Bool
  | [] => pat.isEmpty
  | c :: t => pat.isPrefixOf (c :: t) || isSubstr pat t

/-- Substring test on strings: `strContains hay pat` holds when `pat` occurs
contiguously in `hay`.  `hay.match(/a|b|…/)` is truthy exactly when one of the
literal alternatives is a substring of `hay`. -/
def strContains (hay pat : String) : Bool := isSubstr pat.data hay.data

/-- Tests whether any keyword of the list occurs as a substring. -/
def matchesAny (s : String) (pats : List String) : Bool :=
  pats.any (fun p => strContains s p)

/-- Nutrient entry of a recipe's nutrition payload (name plus numeric amount). -/
structure Nutrient where
  name : String
  amount : ℚ
deriving DecidableEq, Repr

/-- Ingredient entry of a recipe (`extendedIngredients` element); the fields
the storage module reads, with `Option` marking fields that may be absent. -/
structure Ingredient where
  name : String
  aisle : Option String
  amount : Option ℚ
  unit : Option String
deriving DecidableEq, Repr

/-- Recipe snapshot, restricted to the fields the verified layer reads. -/
structure Recipe where
  id : ℤ
  title : String
  nutrition : Option (List Nutrient)
  extendedIngredients : Option (List Ingredient)
deriving DecidableEq, Repr

/-- Concrete recipe snapshot used for the concrete instances of the claims. -/
def testRecipe : Recipe := ⟨1, "Pancakes", none, none⟩

/-! ## JavaScript object model: association lists keyed by strings -/

/-- Property lookup `obj[k]` on a string-keyed record, `none` when absent. -/
def lookupKey (obj : List (String × α)) (k : String) : Option α :=
  (obj.find? (fun p => p.1 == k)).map (fun p => p.2)

/-- Property assignment `obj[k] = v`: updates the existing entry in place
(preserving property order) or appends a fresh key at the end, as JavaScript
objects do. -/
def jsSet (obj : List (String × α)) (k : String) (v : α) : List (String × α) :=
  if obj.any (fun p => p.1 == k) then
    obj.map (fun p => if p.1 == k then (k, v) else p)
  else obj ++ [(k, v)]

/-! ## Meal plan -/

/-- Per-day record of meal slots, each holding `null` or a recipe. -/
abbrev DayMeals := List (String × Option Recipe)

/-- The stored meal-plan record: day name to slot record. -/
abbrev MealPlan := List (String × DayMeals)

/-- The slot record a fresh plan assigns each day: breakfast, lunch, dinner, all null. -/
def emptyDay : DayMeals := [("breakfast", none), ("lunch", none), ("dinner", none)]

/-- Default meal plan produced when no record is stored (`getMealPlan`'s literal). -/
def defaultMealPlan : MealPlan :=
  [("monday", emptyDay), ("tuesday", emptyDay), ("wednesday", emptyDay),
   ("thursday", emptyDay), ("friday", emptyDay), ("saturday", emptyDay),
   ("sunday", emptyDay)]

/-- Embeds `getMealPlan`: the stored record, or the all-null default when absent. -/
def getMealPlan (st : Option MealPlan) : MealPlan := st.getD defaultMealPlan

/-- Embeds `getMealPlan` as a storage operation: it only calls `getFromStorage`,
so the store contents are returned unchanged. -/
def getMealPlanOp (st : Option MealPlan) : MealPlan × Option MealPlan :=
  (getMealPlan st, st)

/-- Embeds `addMealToPlan(day, mealType, recipe)`: rejects when `mealPlan[day]`
is absent, otherwise assigns `mealPlan[day][mealType] = recipe` and persists. -/
def addMealToPlan (day mealType : String) (r : Recipe) (st : Option MealPlan) :
    Bool × Option MealPlan :=
  let mealPlan := getMealPlan st
  match lookupKey mealPlan day with
  | none => (false, st)
  | some dayMeals =>
      (true, some (jsSet mealPlan day (jsSet dayMeals mealType (some r))))

/-- Embeds `getAllMealsFromPlan`: walks day keys then meal-type keys in
property order, collecting `{day, mealType, recipe}` for non-null slots. -/
def getAllMealsFromPlan (st : Option MealPlan) : List (String × String × Recipe) :=
  (getMealPlan st).flatMap
    (fun e => e.2.filterMap (fun q => q.2.map (fun r => (e.1, q.1, r))))

/-- Day keys of a plan, in property order. -/
def planDays (p : MealPlan) : List String := p.map (fun e => e.1)

/-- The seven recognized weekday keys, in the order the default plan lists them. -/
def canonicalDays : List String :=
  ["monday", "tuesday", "wednesday", "thursday", "friday", "saturday", "sunday"]

/-- The three meal-type keys, in the order a fresh day record lists them. -/
def canonicalMeals : List String := ["breakfast", "lunch", "dinner"]

/-- Slot lookup `plan[day][mealType]` flattened to a single `Option`. -/
def lookupSlot (p : MealPlan) (day mealType : String) : Option Recipe :=
  ((lookupKey p day).bind (fun dm => lookupKey dm mealType)).join

/-- A plan whose day keys are exactly the seven canonical days and whose every
day record has exactly the three canonical meal slots, in order. -/
def standardShape (p : MealPlan) : Prop :=
  planDays p = canonicalDays ∧ ∀ e ∈ p, e.2.map (fun q => q.1) = canonicalMeals

/-- Enumeration of the meal plan in the specified order: days monday..sunday,
and breakfast, lunch, dinner within each day, keeping only non-null slots.
Modelled from the spec wording for `getAllMealsFromPlan`'s output order. -/
def canonicalProjection (p : MealPlan) : List (String × String × Recipe) :=
  canonicalDays.flatMap
    (fun d => canonicalMeals.filterMap
      (fun m => (lookupSlot p d m).map (fun r => (d, m, r))))

/-! ## Lemmas about the object model -/

theorem find?_map_update {α : Type} (obj : List (String × α)) (k : String) (v : α)
    (h : obj.any (fun p => p.1 == k) = true) :
    (obj.map (fun p => if p.1 == k then (k, v) else p)).find? (fun p => p.1 == k) =
      some (k, v) := by
  induction obj with
  | nil => simp at h
  | cons a t ih =>
    rw [List.map_cons]
    by_cases hk : a.1 = k
    · have he : (if (a.1 == k) = true then (k, v) else a) = (k, v) := by simp [hk]
      rw [he, List.find?_cons_of_pos _ (by simp)]
    · have he : (if (a.1 == k) = true then (k, v) else a) = a := by simp [hk]
      have ht : t.any (fun p => p.1 == k) = true := by
        simpa [List.any_cons, hk] using h
      rw [he, List.find?_cons_of_neg _ (by simp [hk]), ih ht]

theorem find?_map_update_ne {α : Type} (obj : List (String × α)) (k k' : String) (v : α)
    (hne : k' ≠ k) :
    (obj.map (fun p => if p.1 == k then (k, v) else p)).find? (fun p => p.1 == k') =
      obj.find? (fun p => p.1 == k') := by
  induction obj with
  | nil => rfl
  | cons a t ih =>
    rw [List.map_cons]
    by_cases hk : a.1 = k
    · have he : (if (a.1 == k) = true then (k, v) else a) = (k, v) := by simp [hk]
      rw [he, List.find?_cons_of_neg _ (by simp [Ne.symm hne]),
        List.find?_cons_of_neg _ (by simp [hk, Ne.symm hne]), ih]
    · have he : (if (a.1 == k) = true then (k, v) else a) = a := by simp [hk]
      rw [he]
      by_cases hk' : a.1 = k'
      · rw [List.find?_cons_of_pos _ (by simp [hk']),
          List.find?_cons_of_pos _ (by simp [hk'])]
      · rw [List.find?_cons_of_neg _ (by simp [hk']),
          List.find?_cons_of_neg _ (by simp [hk']), ih]

theorem lookupKey_jsSet_self {α : Type} (obj : List (String × α)) (k : String) (v : α) :
    lookupKey (jsSet obj k v) k = some v := by
  unfold jsSet lookupKey
  by_cases h : obj.any (fun p => p.1 == k) = true
  · rw [if_pos h, find?_map_update obj k v h]
    rfl
  · rw [if_neg h, List.find?_append]
    have hn : obj.find? (fun p => p.1 == k) = none := by
      rw [List.find?_eq_none]
      intro x hx
      exact List.any_eq_false.mp (Bool.eq_false_iff.mpr h) x hx
    rw [hn, List.find?_cons_of_pos _ (by simp)]
    rfl

theorem lookupKey_jsSet_ne {α : Type} (obj : List (String × α)) (k k' : String) (v : α)
    (hne : k' ≠ k) :
    lookupKey (jsSet obj k v) k' = lookupKey obj k' := by
  unfold jsSet lookupKey
  by_cases h : obj.any (fun p => p.1 == k) = true
  · rw [if_pos h, find?_map_update_ne obj k k' v hne]
  · rw [if_neg h, List.find?_append,
      List.find?_cons_of_neg _ (by simp [Ne.symm hne]), List.find?_nil,
      Option.or_none]

theorem map_fst_jsSet_of_any {α : Type} (obj : List (String × α)) (k : String) (v : α)
    (h : obj.any (fun p => p.1 == k) = true) :
    (jsSet obj k v).map (fun p => p.1) = obj.map (fun p => p.1) := by
  unfold jsSet
  rw [if_pos h, List.map_map]
  refine List.map_congr_left (fun a _ => ?_)
  by_cases hk : a.1 = k <;> simp [hk]

theorem lookupKey_eq_none_of_not_mem {α : Type} (obj : List (String × α)) (k : String)
    (h : k ∉ obj.map (fun p => p.1)) :
    lookupKey obj k = none := by
  unfold lookupKey
  have : obj.find? (fun p => p.1 == k) = none := by
    rw [List.find?_eq_none]
    intro x hx
    have : x.1 ≠ k := fun he => h (he ▸ List.mem_map_of_mem _ hx)
    simp [this]
  simp [this]

theorem lookupKey_isSome_of_mem {α : Type} (obj : List (String × α)) (k : String)
    (h : k ∈ obj.map (fun p => p.1)) :
    ∃ v, lookupKey obj k = some v := by
  rcases List.mem_map.mp h with ⟨p, hp, hfst⟩
  unfold lookupKey
  have : (obj.find? (fun q => q.1 == k)).isSome := by
    rw [List.find?_isSome]
    exact ⟨p, hp, by simp [hfst]⟩
  rcases Option.isSome_iff_exists.mp this with ⟨q, hq⟩
  exact ⟨q.2, by simp [hq]⟩

theorem map_fst_cons_inv {α : Type} {l : List (String × α)} {a : String}
    {rest : List String} (h : l.map (fun p => p.1) = a :: rest) :
    ∃ x t, l = (a, x) :: t ∧ t.map (fun p => p.1) = rest := by
  cases l with
  | nil => simp at h
  | cons e t =>
    rcases e with ⟨k, x⟩
    simp only [List.map_cons, List.cons.injEq] at h
    rcases h with ⟨h1, h2⟩
    subst h1
    exact ⟨x, t, rfl, h2⟩

theorem map_fst_nil_inv {α : Type} {l : List (String × α)}
    (h : l.map (fun p => p.1) = []) : l = [] := by
  cases l with
  | nil => rfl
  | cons e t => simp at h

theorem planDays_eq_seven {p : MealPlan} (h : planDays p = canonicalDays) :
    ∃ d1 d2 d3 d4 d5 d6 d7,
      p = [("monday", d1), ("tuesday", d2), ("wednesday", d3), ("thursday", d4),
           ("friday", d5), ("saturday", d6), ("sunday", d7)] := by
  unfold planDays canonicalDays at h
  obtain ⟨d1, t1, rfl, h1⟩ := map_fst_cons_inv h
  obtain ⟨d2, t2, rfl, h2⟩ := map_fst_cons_inv h1
  obtain ⟨d3, t3, rfl, h3⟩ := map_fst_cons_inv h2
  obtain ⟨d4, t4, rfl, h4⟩ := map_fst_cons_inv h3
  obtain ⟨d5, t5, rfl, h5⟩ := map_fst_cons_inv h4
  obtain ⟨d6, t6, rfl, h6⟩ := map_fst_cons_inv h5
  obtain ⟨d7, t7, rfl, h7⟩ := map_fst_cons_inv h6
  rw [map_fst_nil_inv h7]
  exact ⟨d1, d2, d3, d4, d5, d6, d7, rfl⟩

theorem mealKeys_eq_three {dm : DayMeals} (h : dm.map (fun q => q.1) = canonicalMeals) :
    ∃ x y z, dm = [("breakfast", x), ("lunch", y), ("dinner", z)] := by
  unfold canonicalMeals at h
  obtain ⟨x, t1, rfl, h1⟩ := map_fst_cons_inv h
  obtain ⟨y, t2, rfl, h2⟩ := map_fst_cons_inv h1
  obtain ⟨z, t3, rfl, h3⟩ := map_fst_cons_inv h2
  rw [map_fst_nil_inv h3]
  exact ⟨x, y, z, rfl⟩

/-- C5: calling `getMealPlan` on a store holding no meal-plan record returns the
fully-populated default plan — all seven lowercase weekday keys present, each
with breakfast, lunch and dinner slots null (21 null slots, no key missing) —
and does not write this default back: the store stays absent (`none`). -/
theorem claim5_getMealPlan_default :
    getMealPlanOp none =
      ([("monday", [("breakfast", (none : Option Recipe)), ("lunch", none), ("dinner", none)]),
        ("tuesday", [("breakfast", none), ("lunch", none), ("dinner", none)]),
        ("wednesday", [("breakfast", none), ("lunch", none), ("dinner", none)]),
        ("thursday", [("breakfast", none), ("lunch", none), ("dinner", none)]),
        ("friday", [("breakfast", none), ("lunch", none), ("dinner", none)]),
        ("saturday", [("breakfast", none), ("lunch", none), ("dinner", none)]),
        ("sunday", [("breakfast", none), ("lunch", none), ("dinner", none)])],
       none) := rfl

/-- C3: `addMealToPlan` returns false and leaves the store unchanged whenever
the day string is not one of the seven recognized weekday keys (for any store
whose plan carries the canonical day keys), and for a recognized day it
unconditionally overwrites the addressed slot with the given recipe, persists
the plan, and returns true, leaving every other slot unchanged. -/
theorem claim3_addMealToPlan_day_check :
    (∀ (st : Option MealPlan) (day mealType : String) (r : Recipe),
        planDays (getMealPlan st) = canonicalDays → day ∉ canonicalDays →
        addMealToPlan day mealType r st = (false, st)) ∧
    (∀ (st : Option MealPlan) (day mealType : String) (r : Recipe),
        day ∈ planDays (getMealPlan st) →
        (addMealToPlan day mealType r st).1 = true ∧
        ∃ p, (addMealToPlan day mealType r st).2 = some p ∧
          lookupSlot p day mealType = some r ∧
          ∀ d m, ¬(d = day ∧ m = mealType) →
            lookupSlot p d m = lookupSlot (getMealPlan st) d m) := by
  constructor
  · intro st day mealType r hdays hday
    have hnot : day ∉ (getMealPlan st).map (fun p => p.1) := by
      have : (getMealPlan st).map (fun p => p.1) = canonicalDays := hdays
      rw [this]
      exact hday
    have h0 := lookupKey_eq_none_of_not_mem _ _ hnot
    simp [addMealToPlan, h0]
  · intro st day mealType r hday
    obtain ⟨dm, hdm⟩ := lookupKey_isSome_of_mem _ _ hday
    refine ⟨by simp [addMealToPlan, hdm],
      jsSet (getMealPlan st) day (jsSet dm mealType (some r)),
      by simp [addMealToPlan, hdm], ?_, ?_⟩
    · unfold lookupSlot
      rw [lookupKey_jsSet_self]
      simp [lookupKey_jsSet_self]
    · intro d m hne
      by_cases hd : d = day
      · subst hd
        have hm : m ≠ mealType := fun he => hne ⟨rfl, he⟩
        unfold lookupSlot
        rw [lookupKey_jsSet_self, hdm]
        simp [lookupKey_jsSet_ne _ mealType m _ hm]
      · unfold lookupSlot
        rw [lookupKey_jsSet_ne _ day d _ hd]

/-- Witness for C3 at concrete inputs: on the fresh store, writing to the
unrecognized day "funday" is rejected without mutation, and writing to the
recognized day "monday" succeeds. -/
theorem claim3_addMealToPlan_day_check_witness :
    (planDays (getMealPlan none) = canonicalDays ∧ "funday" ∉ canonicalDays ∧
      addMealToPlan "funday" "lunch" testRecipe none = (false, none)) ∧
    ("monday" ∈ planDays (getMealPlan none) ∧
      (addMealToPlan "monday" "lunch" testRecipe none).1 = true) :=
  ⟨⟨by decide, by decide,
      claim3_addMealToPlan_day_check.1 none "funday" "lunch" testRecipe
        (by decide) (by decide)⟩,
    ⟨by decide,
      (claim3_addMealToPlan_day_check.2 none "monday" "lunch" testRecipe
        (by decide)).1⟩⟩

/-- C4: `addMealToPlan` validates only the day key, never the meal type: for
any store whose plan carries the day, any mealType string whatsoever is
accepted — the call returns true and persists the recipe under
`mealPlan[day][mealType]`.  Concretely, writing to the slot "brunch" of
"monday" on a fresh store succeeds and leaves monday with four slot keys,
breaking the three-slot shape of the data model. -/
theorem claim4_addMealToPlan_ignores_mealType :
    (∀ (st : Option MealPlan) (day mealType : String) (r : Recipe),
        day ∈ planDays (getMealPlan st) →
        (addMealToPlan day mealType r st).1 = true ∧
        ∃ p, (addMealToPlan day mealType r st).2 = some p ∧
          lookupSlot p day mealType = some r) ∧
    (addMealToPlan "monday" "brunch" testRecipe none).1 = true ∧
    ((addMealToPlan "monday" "brunch" testRecipe none).2.bind
        (fun p => lookupKey p "monday") =
      some [("breakfast", none), ("lunch", none), ("dinner", none),
            ("brunch", some testRecipe)]) := by
  refine ⟨?_, by decide, by decide⟩
  intro st day mealType r hday
  obtain ⟨dm, hdm⟩ := lookupKey_isSome_of_mem _ _ hday
  refine ⟨by simp [addMealToPlan, hdm],
    jsSet (getMealPlan st) day (jsSet dm mealType (some r)),
    by simp [addMealToPlan, hdm], ?_⟩
  unfold lookupSlot
  rw [lookupKey_jsSet_self]
  simp [lookupKey_jsSet_self]

/-- Witness for C4: on the fresh store, "monday" is a recognized day, and the
general statement applied there yields success together with the stored
recipe under the non-standard slot "brunch". -/
theorem claim4_addMealToPlan_ignores_mealType_witness :
    "monday" ∈ planDays (getMealPlan none) ∧
    ((addMealToPlan "monday" "brunch" testRecipe none).1 = true ∧
      ∃ p, (addMealToPlan "monday" "brunch" testRecipe none).2 = some p ∧
        lookupSlot p "monday" "brunch" = some testRecipe) :=
  ⟨by decide,
    claim4_addMealToPlan_ignores_mealType.1 none "monday" "brunch" testRecipe
      (by decide)⟩

theorem flatMap_congr_left {α β : Type} {l : List α} {f g : α → List β}
    (h : ∀ a ∈ l, f a = g a) : l.flatMap f = l.flatMap g := by
  induction l with
  | nil => rfl
  | cons a t ih =>
    rw [List.flatMap_cons, List.flatMap_cons, h a (by simp),
      ih (fun b hb => h b (by simp [hb]))]

theorem lookupKey_of_mem_nodup {α : Type} {obj : List (String × α)} {e : String × α}
    (hnd : (obj.map (fun p => p.1)).Nodup) (he : e ∈ obj) :
    lookupKey obj e.1 = some e.2 := by
  induction obj with
  | nil => simp at he
  | cons a t ih =>
    rw [List.map_cons, List.nodup_cons] at hnd
    rcases List.mem_cons.mp he with rfl | ht
    · unfold lookupKey
      rw [List.find?_cons_of_pos _ (by simp)]
      rfl
    · have hne : a.1 ≠ e.1 := by
        intro hcontra
        exact hnd.1 (hcontra ▸ List.mem_map_of_mem _ ht)
      unfold lookupKey
      rw [List.find?_cons_of_neg _ (by simp [hne])]
      exact ih hnd.2 ht

theorem dayChunk (d : String) (x y z : Option Recipe) :
    ([("breakfast", x), ("lunch", y), ("dinner", z)] : DayMeals).filterMap
        (fun q => q.2.map (fun r => (d, q.1, r))) =
      canonicalMeals.filterMap
        (fun m =>
          ((lookupKey [("breakfast", x), ("lunch", y), ("dinner", z)] m).join).map
            (fun r => (d, m, r))) := by
  cases x <;> cases y <;> cases z <;> rfl

/-- Second concrete recipe snapshot, distinct from `testRecipe`. -/
def testRecipe2 : Recipe := ⟨2, "Salad", none, none⟩

/-- C6: `getAllMealsFromPlan` returns exactly the non-null slots, ordered by
day monday..sunday and within a day by breakfast, lunch, dinner — for every
plan of the standard shape, hence independently of the order in which slots
were populated.  Concretely, populating monday/breakfast and sunday/dinner in
either insertion order yields exactly those two entries in day order. -/
theorem claim6_getAllMealsFromPlan_order :
    (∀ st : Option MealPlan, standardShape (getMealPlan st) →
        getAllMealsFromPlan st = canonicalProjection (getMealPlan st)) ∧
    getAllMealsFromPlan
        (addMealToPlan "sunday" "dinner" testRecipe2
          (addMealToPlan "monday" "breakfast" testRecipe none).2).2 =
      [("monday", "breakfast", testRecipe), ("sunday", "dinner", testRecipe2)] ∧
    getAllMealsFromPlan
        (addMealToPlan "monday" "breakfast" testRecipe
          (addMealToPlan "sunday" "dinner" testRecipe2 none).2).2 =
      [("monday", "breakfast", testRecipe), ("sunday", "dinner", testRecipe2)] := by
  refine ⟨?_, by decide, by decide⟩
  intro st hshape
  obtain ⟨hd, hm⟩ := hshape
  have hnd : ((getMealPlan st).map (fun p => p.1)).Nodup := by
    have : (getMealPlan st).map (fun p => p.1) = canonicalDays := hd
    rw [this]
    decide
  unfold canonicalProjection getAllMealsFromPlan
  rw [← hd]
  unfold planDays
  rw [List.flatMap_map]
  refine flatMap_congr_left (fun e he => ?_)
  have hsome : lookupKey (getMealPlan st) e.1 = some e.2 :=
    lookupKey_of_mem_nodup hnd he
  rcases e with ⟨d, dm⟩
  obtain ⟨x, y, z, rfl⟩ := mealKeys_eq_three (hm ⟨d, dm⟩ he)
  simp only [Function.comp, lookupSlot, hsome, Option.some_bind]
  exact dayChunk d x y z

/-- Witness for C6: the fresh store's default plan has the standard shape, and
the enumeration equality holds there. -/
theorem claim6_getAllMealsFromPlan_order_witness :
    standardShape (getMealPlan none) ∧
      getAllMealsFromPlan none = canonicalProjection (getMealPlan none) :=
  ⟨⟨by decide, by decide⟩,
    claim6_getAllMealsFromPlan_order.1 none ⟨by decide, by decide⟩⟩

/-! ## Favorites -/

/-- Stored favorite: the recipe snapshot (spread into the record in the
source) together with the `addedAt` timestamp stamped at insertion. -/
structure Fav where
  recipe : Recipe
  addedAt : Nat
deriving DecidableEq, Repr

/-- Embeds `getFavorites`: the stored array, or empty when absent. -/
def getFavorites (st : Option (List Fav)) : List Fav := st.getD []

/-- Embeds `addToFavorites(recipe)`: rejects when some stored favorite has the
same id, otherwise appends the recipe with the current timestamp and persists. -/
def addToFavorites (r : Recipe) (now : Nat) (st : Option (List Fav)) :
    Bool × Option (List Fav) :=
  let favorites := getFavorites st
  if favorites.any (fun fav => fav.recipe.id == r.id) then (false, st)
  else (true, some (favorites ++ [⟨r, now⟩]))

/-- Embeds `removeFromFavorites(recipeId)`: keeps entries whose id differs and
persists the filtered array. -/
def removeFromFavorites (rid : ℤ) (st : Option (List Fav)) : Option (List Fav) :=
  some ((getFavorites st).filter (fun fav => fav.recipe.id != rid))

/-- Embeds `clearFavorites`: persists the empty array. -/
def clearFavorites (_st : Option (List Fav)) : Option (List Fav) := some []

/-- Recipe ids of a favorites collection, in storage order. -/
def favIds (l : List Fav) : List ℤ := l.map (fun f => f.recipe.id)

theorem not_mem_favIds_of_any_false {l : List Fav} {a : ℤ}
    (h : l.any (fun fav => fav.recipe.id == a) = false) : a ∉ favIds l := by
  intro hmem
  rcases List.mem_map.mp hmem with ⟨f, hf, hid⟩
  have := List.any_eq_false.mp h f hf
  simp [hid] at this

theorem countP_id_eq_one {l : List Fav} {a : ℤ} (hnd : (favIds l).Nodup)
    (hmem : l.any (fun fav => fav.recipe.id == a) = true) :
    l.countP (fun fav => fav.recipe.id == a) = 1 := by
  induction l with
  | nil => simp at hmem
  | cons f t ih =>
    have hnd' := hnd
    rw [show favIds (f :: t) = f.recipe.id :: favIds t from rfl,
      List.nodup_cons] at hnd'
    by_cases hf : f.recipe.id = a
    · rw [List.countP_cons_of_pos _ _ (by simp [hf])]
      have hz : t.countP (fun fav => fav.recipe.id == a) = 0 := by
        rw [List.countP_eq_zero]
        intro g hg
        intro hga
        have : g.recipe.id = a := by simpa using hga
        exact hnd'.1 (by rw [hf, ← this]; exact List.mem_map_of_mem _ hg)
      rw [hz]
    · rw [List.countP_cons_of_neg _ _ (by simp [hf])]
      have hmem' : t.any (fun fav => fav.recipe.id == a) = true := by
        rcases List.any_eq_true.mp hmem with ⟨g, hg, hga⟩
        rcases List.mem_cons.mp hg with rfl | hgt
        · exact absurd (by simpa using hga) hf
        · exact List.any_eq_true.mpr ⟨g, hgt, hga⟩
      exact ih hnd'.2 hmem'

/-- C1: `addToFavorites` is a rejecting no-op when the recipe id is already
present and an appending success otherwise; adding the same id twice leaves
exactly one entry with that id; and uniqueness of recipe ids is preserved by
every mutating favorites operation (add, remove, clear). -/
theorem claim1_favorites_unique_by_id :
    (∀ (st : Option (List Fav)) (r : Recipe) (now : Nat),
        (getFavorites st).any (fun fav => fav.recipe.id == r.id) = true →
        addToFavorites r now st = (false, st)) ∧
    (∀ (st : Option (List Fav)) (r : Recipe) (now : Nat),
        (getFavorites st).any (fun fav => fav.recipe.id == r.id) = false →
        addToFavorites r now st = (true, some (getFavorites st ++ [⟨r, now⟩]))) ∧
    (∀ (st : Option (List Fav)) (r r' : Recipe) (n n' : Nat),
        (favIds (getFavorites st)).Nodup → r'.id = r.id →
        (getFavorites (addToFavorites r' n' (addToFavorites r n st).2).2).countP
            (fun fav => fav.recipe.id == r.id) = 1) ∧
    (∀ (st : Option (List Fav)) (r : Recipe) (now : Nat),
        (favIds (getFavorites st)).Nodup →
        (favIds (getFavorites (addToFavorites r now st).2)).Nodup) ∧
    (∀ (st : Option (List Fav)) (rid : ℤ),
        (favIds (getFavorites st)).Nodup →
        (favIds (getFavorites (removeFromFavorites rid st))).Nodup) ∧
    (∀ st : Option (List Fav), (favIds (getFavorites (clearFavorites st))).Nodup) := by
  refine ⟨?_, ?_, ?_, ?_, ?_, ?_⟩
  · intro st r now h
    simp [addToFavorites, h]
  · intro st r now h
    simp [addToFavorites, h]
  · intro st r r' n n' hnd hid
    cases hany : (getFavorites st).any (fun fav => fav.recipe.id == r.id) with
    | true =>
        have h1 : addToFavorites r n st = (false, st) := by
          simp [addToFavorites, hany]
        have hany' : (getFavorites st).any (fun fav => fav.recipe.id == r'.id) = true := by
          rw [hid]
          exact hany
        have h2 : addToFavorites r' n' st = (false, st) := by
          simp [addToFavorites, hany']
        rw [h1, h2]
        exact countP_id_eq_one hnd hany
    | false =>
        have h1 : addToFavorites r n st =
            (true, some (getFavorites st ++ [(⟨r, n⟩ : Fav)])) := by
          simp [addToFavorites, hany]
        have hany' : (getFavorites st ++ [(⟨r, n⟩ : Fav)]).any
            (fun fav => fav.recipe.id == r'.id) = true := by
          rw [hid]
          simp [List.any_append]
        have h2 : addToFavorites r' n' (some (getFavorites st ++ [(⟨r, n⟩ : Fav)])) =
            (false, some (getFavorites st ++ [(⟨r, n⟩ : Fav)])) := by
          have hg : getFavorites (some (getFavorites st ++ [(⟨r, n⟩ : Fav)])) =
              getFavorites st ++ [(⟨r, n⟩ : Fav)] := rfl
          simp only [addToFavorites, hg]
          rw [if_pos hany']
        rw [h1, h2]
        have hz : (getFavorites st).countP (fun fav => fav.recipe.id == r.id) = 0 := by
          rw [List.countP_eq_zero]
          intro g hg
          exact List.any_eq_false.mp hany g hg
        rw [show getFavorites (some (getFavorites st ++ [(⟨r, n⟩ : Fav)])) =
              getFavorites st ++ [(⟨r, n⟩ : Fav)] from rfl,
          List.countP_append, hz]
        simp
  · intro st r now hnd
    cases hany : (getFavorites st).any (fun fav => fav.recipe.id == r.id) with
    | true => simpa [addToFavorites, hany] using hnd
    | false =>
        have hnotmem := not_mem_favIds_of_any_false hany
        have h1 : addToFavorites r now st =
            (true, some (getFavorites st ++ [(⟨r, now⟩ : Fav)])) := by
          simp [addToFavorites, hany]
        rw [h1]
        show (favIds (getFavorites st ++ [(⟨r, now⟩ : Fav)])).Nodup
        rw [show favIds (getFavorites st ++ [(⟨r, now⟩ : Fav)]) =
              favIds (getFavorites st) ++ [r.id] from by simp [favIds]]
        rw [List.nodup_append]
        exact ⟨hnd, List.nodup_singleton _, by
          intro a ha hb
          rw [List.mem_singleton] at hb
          exact hnotmem (hb ▸ ha)⟩
  · intro st rid hnd
    have hsub : ((getFavorites st).filter (fun fav => fav.recipe.id != rid)).Sublist
        (getFavorites st) := List.filter_sublist _
    have : (favIds ((getFavorites st).filter (fun fav => fav.recipe.id != rid))).Sublist
        (favIds (getFavorites st)) := hsub.map _
    exact this.nodup hnd
  · intro st
    simp [clearFavorites, getFavorites, favIds]

/-- Witness for C1: adding the same recipe twice to the fresh store leaves a
single entry with its id. -/
theorem claim1_favorites_unique_by_id_witness :
    (favIds (getFavorites none)).Nodup ∧ testRecipe.id = testRecipe.id ∧
      (getFavorites
          (addToFavorites testRecipe 2 (addToFavorites testRecipe 1 none).2).2).countP
        (fun fav => fav.recipe.id == testRecipe.id) = 1 :=
  ⟨by decide, rfl,
    claim1_favorites_unique_by_id.2.2.1 none testRecipe testRecipe 1 2 (by decide) rfl⟩

/-! ## Ingredient categorization -/

/-- Keyword alternatives of the produce pattern in `categorizeIngredient`. -/
def producePats : List String :=
  ["produce", "vegetable", "fruit", "lettuce", "tomato", "onion", "pepper",
   "carrot", "broccoli", "spinach", "kale", "cabbage", "cucumber", "zucchini",
   "potato", "celery", "avocado", "mushroom", "garlic", "herb", "fresh"]

/-- Keyword alternatives of the meat and seafood pattern. -/
def meatPats : List String :=
  ["meat", "seafood", "poultry", "beef", "chicken", "pork", "fish", "salmon",
   "tuna", "shrimp", "turkey", "bacon", "ham", "steak", "ground"]

/-- Keyword alternatives of the dairy pattern. -/
def dairyPats : List String :=
  ["dairy", "milk", "cheese", "yogurt", "butter", "cream", "egg", "sour cream",
   "cottage cheese", "mozzarella", "cheddar", "parmesan"]

/-- Keyword alternatives of the grains and bread pattern. -/
def grainsPats : List String :=
  ["bread", "bakery", "grain", "pasta", "rice", "cereal", "flour", "oat",
   "quinoa", "tortilla", "bagel", "bun", "roll", "noodle", "spaghetti", "penne"]

/-- Keyword alternatives of the spices and condiments pattern. -/
def spicesPats : List String :=
  ["spice", "condiment", "oil", "vinegar", "sauce", "seasoning", "salt",
   "pepper", "oregano", "basil", "cumin", "paprika", "cinnamon", "vanilla",
   "mayo", "mustard", "ketchup", "soy sauce", "olive oil"]

/-- Keyword alternatives of the pantry and canned pattern. -/
def pantryPats : List String :=
  ["canned", "jar", "can", "dried", "baking", "sugar", "stock", "broth",
   "bean", "tomato paste", "coconut milk"]

/-- Embeds `categorizeIngredient(aisle)`: lower-cases the input, then tests
the six keyword patterns in the source's order, returning at the first
match and falling through to "other". -/
def categorizeIngredient (aisle : String) : String :=
  let aisleStr := lowerStr aisle
  if matchesAny aisleStr producePats then "produce"
  else if matchesAny aisleStr meatPats then "meat"
  else if matchesAny aisleStr dairyPats then "dairy"
  else if matchesAny aisleStr grainsPats then "grains"
  else if matchesAny aisleStr spicesPats then "spices"
  else if matchesAny aisleStr pantryPats then "pantry"
  else "other"

/-- Ordered category rules: keyword pattern groups in the fixed priority
order produce, meat, dairy, grains, spices, pantry.  Modelled from the spec's
description of the categorization rule as an ordered first-match-wins list. -/
def categoryRules : List (List String × String) :=
  [(producePats, "produce"), (meatPats, "meat"), (dairyPats, "dairy"),
   (grainsPats, "grains"), (spicesPats, "spices"), (pantryPats, "pantry")]

/-- First-match-wins categorization over the ordered rule list, defaulting to
"other".  Modelled from the spec's words for the categorization rule. -/
def specCategorize (aisle : String) : String :=
  ((categoryRules.find? (fun rule => matchesAny (lowerStr aisle) rule.1)).map
    (fun rule => rule.2)).getD "other"

/-- C8: `categorizeIngredient` lower-cases its input and is exactly the
first-match-wins walk of the keyword pattern groups in the priority order
produce, meat, dairy, grains, spices, pantry, with default "other"; in
particular "fresh basil" is categorized "produce" (produce is tested before
spices), and an input matching no pattern yields "other". -/
theorem claim8_categorizeIngredient_priority :
    (∀ s : String, categorizeIngredient s = specCategorize s) ∧
    categorizeIngredient "fresh basil" = "produce" ∧
    categorizeIngredient "chocolate" = "other" := by
  refine ⟨?_, by decide, by decide⟩
  intro s
  unfold categorizeIngredient specCategorize categoryRules
  cases h1 : matchesAny (lowerStr s) producePats <;>
    cases h2 : matchesAny (lowerStr s) meatPats <;>
      cases h3 : matchesAny (lowerStr s) dairyPats <;>
        cases h4 : matchesAny (lowerStr s) grainsPats <;>
          cases h5 : matchesAny (lowerStr s) spicesPats <;>
            cases h6 : matchesAny (lowerStr s) pantryPats <;>
              simp [List.find?, h1, h2, h3, h4, h5, h6]

/-! ## Shopping list -/

/-- Stored shopping-list entry, as `addToShoppingList` builds it. -/
structure ShopItem where
  id : Nat
  name : String
  category : String
  checked : Bool
  addedAt : Nat
deriving DecidableEq, Repr

/-- Caller-supplied item passed to `addToShoppingList`: the fields the
function reads, with the category optional (JavaScript `item.category ||
'other'` also treats the empty string as absent). -/
structure NewItem where
  name : String
  category : Option String
deriving DecidableEq, Repr

/-- JavaScript `item.category || 'other'`: absent or empty-string category
falls back to "other". -/
def categoryOrOther (c : Option String) : String :=
  match c with
  | some s => if s == "" then "other" else s
  | none => "other"

/-- Embeds `getShoppingList`: the stored array, or empty when absent. -/
def getShoppingList (st : Option (List ShopItem)) : List ShopItem := st.getD []

/-- Embeds `addToShoppingList(item)`: rejects when an item with the same
case-insensitive name exists; otherwise appends an entry with id and
`addedAt` both `Date.now()`, the given name, the defaulted category and
`checked` false, then persists. -/
def addToShoppingList (item : NewItem) (now : Nat) (st : Option (List ShopItem)) :
    Bool × Option (List ShopItem) :=
  let list := getShoppingList st
  if list.any (fun i => lowerStr i.name == lowerStr item.name) then (false, st)
  else
    (true, some (list ++ [⟨now, item.name, categoryOrOther item.category, false, now⟩]))

/-- C2 fails on the code: `addToShoppingList` draws the new item's id from
`Date.now()` alone, so two successful insertions within the same millisecond
receive the same id.  This theorem evaluates the code at such an input: both
calls succeed and the stored list carries the duplicate id 1000 twice. -/
theorem claim2_shopping_ids_collide :
    (addToShoppingList ⟨"apples", none⟩ 1000 none).1 = true ∧
    (addToShoppingList ⟨"bananas", none⟩ 1000
        (addToShoppingList ⟨"apples", none⟩ 1000 none).2).1 = true ∧
    ((getShoppingList
        (addToShoppingList ⟨"bananas", none⟩ 1000
          (addToShoppingList ⟨"apples", none⟩ 1000 none).2).2).map
      (fun i => i.id)) = [1000, 1000] ∧
    ¬ ((getShoppingList
        (addToShoppingList ⟨"bananas", none⟩ 1000
          (addToShoppingList ⟨"apples", none⟩ 1000 none).2).2).map
      (fun i => i.id)).Nodup := by
  refine ⟨by decide, by decide, by decide, by decide⟩

/-! ## Shopping list generation from the meal plan -/

/-- Entry of the generated (not persisted) shopping list. -/
structure GenItem where
  name : String
  category : String
  amount : ℚ
  unit : String
  checked : Bool
deriving DecidableEq, Repr

/-- JavaScript `ingredient.amount || 0` (an absent amount contributes 0). -/
def ingAmount (ing : Ingredient) : ℚ := (ing.amount).getD 0

/-- JavaScript `ingredient.aisle || ingredient.name`: absent or empty aisle
falls back to the ingredient name. -/
def aisleOrName (ing : Ingredient) : String :=
  match ing.aisle with
  | some a => if a == "" then ing.name else a
  | none => ing.name

/-- Category the generator derives for an ingredient. -/
def ingCategory (ing : Ingredient) : String := categorizeIngredient (aisleOrName ing)

/-- Fresh map entry created at an ingredient's first occurrence. -/
def mkGenItem (ing : Ingredient) : GenItem :=
  ⟨ing.name, ingCategory ing, ingAmount ing, (ing.unit).getD "", false⟩

/-- One iteration of the generator's loop over a recipe ingredient: an
existing entry of the same exact name accumulates the amount in place,
otherwise a fresh entry is appended (JavaScript `Map` insertion order). -/
def insertIngredient (acc : List GenItem) (ing : Ingredient) : List GenItem :=
  if acc.any (fun e => e.name == ing.name) then
    acc.map (fun e =>
      if e.name == ing.name then { e with amount := e.amount + ingAmount ing } else e)
  else acc ++ [mkGenItem ing]

/-- All ingredients of the planned meals, in enumeration order
(`meals.forEach` over `getAllMealsFromPlan`, recipes without an
`extendedIngredients` field contributing nothing). -/
def allPlanIngredients (st : Option MealPlan) : List Ingredient :=
  (getAllMealsFromPlan st).flatMap (fun m =>
    match m.2.2.extendedIngredients with
    | some l => l
    | none => [])

/-- Embeds `generateShoppingListFromMealPlan`: folds every planned
ingredient into the accumulating map and returns its values. -/
def generateShoppingListFromMealPlan (st : Option MealPlan) : List GenItem :=
  (allPlanIngredients st).foldl insertIngredient []

/-- Names in first-occurrence order with duplicates removed. -/
def dedupFirst : List String → List String
  | [] => []
  | a :: t => a :: (dedupFirst t).filter (fun b => !(b == a))

/-- Total amount of all occurrences of an exact name. -/
def sumAmounts (ings : List Ingredient) (n : String) : ℚ :=
  (ings.filter (fun i => i.name == n)).foldl (fun a i => a + ingAmount i) 0

/-- Aggregated entry for one name: category and unit from the first
occurrence, amount summed over all occurrences of the exact name.  Modelled
from the spec's words for the generator's grouping rule. -/
def specEntry (ings : List Ingredient) (n : String) : GenItem :=
  match ings.find? (fun i => i.name == n) with
  | some i0 => ⟨n, ingCategory i0, sumAmounts ings n, (i0.unit).getD "", false⟩
  | none => ⟨n, "other", 0, "", false⟩

/-- Group-by-exact-name aggregation of an ingredient sequence, one entry per
distinct name in first-occurrence order.  Modelled from the spec's words. -/
def specAggregate (ings : List Ingredient) : List GenItem :=
  (dedupFirst (ings.map (fun i => i.name))).map (specEntry ings)

theorem specEntry_name (ings : List Ingredient) (n : String) :
    (specEntry ings n).name = n := by
  unfold specEntry
  cases h : ings.find? (fun i => i.name == n) <;> simp

theorem mem_dedupFirst {a : String} {l : List String} :
    a ∈ dedupFirst l ↔ a ∈ l := by
  induction l with
  | nil => simp [dedupFirst]
  | cons b t ih =>
    unfold dedupFirst
    by_cases hab : a = b
    · subst hab
      simp
    · simp only [List.mem_cons, List.mem_filter, ih, hab, false_or]
      constructor
      · intro h
        exact h.1
      · intro h
        exact ⟨h, by simp [hab]⟩

theorem dedupFirst_append_singleton (l : List String) (a : String) :
    dedupFirst (l ++ [a]) =
      if a ∈ l then dedupFirst l else dedupFirst l ++ [a] := by
  induction l with
  | nil => simp [dedupFirst]
  | cons b t ih =>
    show dedupFirst (b :: (t ++ [a])) = _
    unfold dedupFirst
    rw [ih]
    by_cases hat : a ∈ t
    · rw [if_pos hat, if_pos (by simp [hat])]
    · rw [if_neg hat]
      by_cases hab : a = b
      · subst hab
        rw [if_pos (by simp)]
        rw [List.filter_append]
        simp [dedupFirst]
      · rw [if_neg (by simp [hab, hat])]
        rw [List.filter_append]
        simp [hab]

theorem sumAmounts_append_singleton (ings : List Ingredient) (i : Ingredient)
    (n : String) :
    sumAmounts (ings ++ [i]) n =
      sumAmounts ings n + (if i.name = n then ingAmount i else 0) := by
  unfold sumAmounts
  rw [List.filter_append, List.foldl_append]
  by_cases hn : i.name = n
  · simp [hn]
  · simp [hn]

theorem find?_name_isSome_of_mem {ings : List Ingredient} {n : String}
    (h : n ∈ ings.map (fun i => i.name)) :
    ∃ i0, ings.find? (fun i => i.name == n) = some i0 := by
  rcases List.mem_map.mp h with ⟨i, hi, hname⟩
  have : (ings.find? (fun i => i.name == n)).isSome := by
    rw [List.find?_isSome]
    exact ⟨i, hi, by simp [hname]⟩
  rcases Option.isSome_iff_exists.mp this with ⟨i0, hi0⟩
  exact ⟨i0, hi0⟩

theorem insertIngredient_specAggregate (pre : List Ingredient) (i : Ingredient) :
    insertIngredient (specAggregate pre) i = specAggregate (pre ++ [i]) := by
  have hnames : (pre ++ [i]).map (fun j => j.name) =
      pre.map (fun j => j.name) ++ [i.name] := by simp
  by_cases hin : i.name ∈ pre.map (fun j => j.name)
  · have hany : (specAggregate pre).any (fun e => e.name == i.name) = true := by
      rw [List.any_eq_true]
      exact ⟨specEntry pre i.name,
        List.mem_map_of_mem _ (mem_dedupFirst.mpr hin), by simp [specEntry_name]⟩
    unfold insertIngredient
    rw [if_pos hany]
    unfold specAggregate
    rw [hnames, dedupFirst_append_singleton, if_pos hin, List.map_map]
    refine List.map_congr_left (fun n hn => ?_)
    have hnpre : n ∈ pre.map (fun j => j.name) := mem_dedupFirst.mp hn
    obtain ⟨i0, hfind⟩ := find?_name_isSome_of_mem hnpre
    have hfind2 : (pre ++ [i]).find? (fun j => j.name == n) = some i0 := by
      rw [List.find?_append, hfind]
      rfl
    simp only [Function.comp_apply]
    rw [show specEntry pre n =
        ⟨n, ingCategory i0, sumAmounts pre n, (i0.unit).getD "", false⟩ from by
          simp [specEntry, hfind],
      show specEntry (pre ++ [i]) n =
        ⟨n, ingCategory i0, sumAmounts (pre ++ [i]) n, (i0.unit).getD "", false⟩ from by
          simp [specEntry, hfind2],
      sumAmounts_append_singleton]
    by_cases hni : n = i.name
    · simp [hni]
    · have hni' : i.name ≠ n := Ne.symm hni
      simp [hni, hni']
  · have hany : (specAggregate pre).any (fun e => e.name == i.name) = false := by
      rw [List.any_eq_false]
      intro e he
      rcases List.mem_map.mp he with ⟨n, hn, rfl⟩
      have hnpre : n ∈ pre.map (fun j => j.name) := mem_dedupFirst.mp hn
      have hne : n ≠ i.name := fun heq => hin (heq ▸ hnpre)
      simp [specEntry_name, hne]
    unfold insertIngredient
    rw [if_neg (by simp [hany])]
    unfold specAggregate
    rw [hnames, dedupFirst_append_singleton, if_neg hin, List.map_append]
    congr 1
    · refine List.map_congr_left (fun n hn => ?_)
      have hnpre : n ∈ pre.map (fun j => j.name) := mem_dedupFirst.mp hn
      obtain ⟨i0, hfind⟩ := find?_name_isSome_of_mem hnpre
      have hfind2 : (pre ++ [i]).find? (fun j => j.name == n) = some i0 := by
        rw [List.find?_append, hfind]
        rfl
      have hne : i.name ≠ n := fun heq => hin (heq ▸ hnpre)
      simp [specEntry, hfind, hfind2, sumAmounts_append_singleton, hne]
    · have hfindpre : pre.find? (fun j => j.name == i.name) = none := by
        rw [List.find?_eq_none]
        intro j hj
        have : j.name ≠ i.name := fun heq => hin (heq ▸ List.mem_map_of_mem _ hj)
        simp [this]
      have hfind2 : (pre ++ [i]).find? (fun j => j.name == i.name) = some i := by
        rw [List.find?_append, hfindpre]
        simp [List.find?]
      have hfilter : pre.filter (fun j => j.name == i.name) = [] := by
        rw [List.filter_eq_nil_iff]
        intro j hj
        have : j.name ≠ i.name := fun heq => hin (heq ▸ List.mem_map_of_mem _ hj)
        simp [this]
      have hsum : sumAmounts (pre ++ [i]) i.name = ingAmount i := by
        unfold sumAmounts
        rw [List.filter_append, hfilter]
        simp [List.filter]
      simp [specEntry, hfind2, hsum, mkGenItem]

theorem foldl_insertIngredient_specAggregate (l pre : List Ingredient) :
    l.foldl insertIngredient (specAggregate pre) = specAggregate (pre ++ l) := by
  induction l generalizing pre with
  | nil => simp
  | cons i t ih =>
    rw [List.foldl_cons, insertIngredient_specAggregate, ih (pre ++ [i])]
    simp

theorem generate_eq_specAggregate (st : Option MealPlan) :
    generateShoppingListFromMealPlan st = specAggregate (allPlanIngredients st) := by
  have h := foldl_insertIngredient_specAggregate (allPlanIngredients st) []
  simpa [generateShoppingListFromMealPlan, specAggregate, dedupFirst] using h

/-- Ingredient "Tomato", 2 kg, used in the concrete aggregation instance. -/
def tomatoIngA : Ingredient := ⟨"Tomato", some "produce", some 2, some "kg"⟩

/-- Ingredient "Tomato", 3 kg, used in the concrete aggregation instance. -/
def tomatoIngB : Ingredient := ⟨"Tomato", some "produce", some 3, some "kg"⟩

/-- Recipe carrying `tomatoIngA`. -/
def tomatoRecipe1 : Recipe := ⟨3, "Tomato Soup", none, some [tomatoIngA]⟩

/-- Recipe carrying `tomatoIngB`. -/
def tomatoRecipe2 : Recipe := ⟨4, "Tomato Sauce", none, some [tomatoIngB]⟩

/-- Store holding a plan with the two tomato recipes on monday. -/
def tomatoStore : Option MealPlan :=
  (addMealToPlan "monday" "lunch" tomatoRecipe2
    (addMealToPlan "monday" "breakfast" tomatoRecipe1 none).2).2

/-- C7: `addToShoppingList` rejects any item whose name equals a stored item's
name case-insensitively, leaving the list unchanged — so adding "Tomato" then
"tomato" keeps the single original entry unmodified — whereas
`generateShoppingListFromMealPlan` groups by exact name: it equals the
group-by-exact-name aggregation whose per-name amount is the sum of all
occurrences and whose category and unit come from the first occurrence;
concretely two planned recipes each containing "Tomato" (2 kg and 3 kg)
produce the single entry with amount 5. -/
theorem claim7_shopping_name_matching :
    (∀ (st : Option (List ShopItem)) (item : NewItem) (now : Nat),
        (getShoppingList st).any
            (fun i => lowerStr i.name == lowerStr item.name) = true →
        addToShoppingList item now st = (false, st)) ∧
    (addToShoppingList ⟨"tomato", some "canned"⟩ 2
        (addToShoppingList ⟨"Tomato", some "produce"⟩ 1 none).2 =
      (false, (addToShoppingList ⟨"Tomato", some "produce"⟩ 1 none).2) ∧
      getShoppingList (addToShoppingList ⟨"Tomato", some "produce"⟩ 1 none).2 =
        [⟨1, "Tomato", "produce", false, 1⟩]) ∧
    (∀ st : Option MealPlan,
        generateShoppingListFromMealPlan st = specAggregate (allPlanIngredients st)) ∧
    generateShoppingListFromMealPlan tomatoStore =
      [⟨"Tomato", "produce", 5, "kg", false⟩] := by
  refine ⟨?_, ⟨by decide, by decide⟩, generate_eq_specAggregate, ?_⟩
  · intro st item now h
    simp [addToShoppingList, h]
  · rw [generate_eq_specAggregate]
    have hing : allPlanIngredients tomatoStore = [tomatoIngA, tomatoIngB] := rfl
    rw [hing]
    have hfind : [tomatoIngA, tomatoIngB].find?
        (fun i => i.name == "Tomato") = some tomatoIngA := rfl
    have hsum : sumAmounts [tomatoIngA, tomatoIngB] "Tomato" = 5 := by
      unfold sumAmounts
      rw [show [tomatoIngA, tomatoIngB].filter (fun i => i.name == "Tomato") =
            [tomatoIngA, tomatoIngB] from rfl]
      show 0 + (2 : ℚ) + 3 = 5
      norm_num
    have hcat : ingCategory tomatoIngA = "produce" := by decide
    rw [show specAggregate [tomatoIngA, tomatoIngB] =
          [specEntry [tomatoIngA, tomatoIngB] "Tomato"] from rfl]
    rw [show specEntry [tomatoIngA, tomatoIngB] "Tomato" =
          ⟨"Tomato", ingCategory tomatoIngA,
            sumAmounts [tomatoIngA, tomatoIngB] "Tomato",
            (tomatoIngA.unit).getD "", false⟩ from by simp [specEntry, hfind]]
    rw [hsum, hcat]
    rfl

/-- Witness for C7: the store already holding "Tomato" satisfies the
case-insensitive duplicate condition for "tomato", and the rejection leaves
the store unchanged. -/
theorem claim7_shopping_name_matching_witness :
    (getShoppingList (addToShoppingList ⟨"Tomato", some "produce"⟩ 1 none).2).any
        (fun i => lowerStr i.name ==
          lowerStr (NewItem.mk "tomato" (some "canned")).name) = true ∧
    addToShoppingList ⟨"tomato", some "canned"⟩ 5
        (addToShoppingList ⟨"Tomato", some "produce"⟩ 1 none).2 =
      (false, (addToShoppingList ⟨"Tomato", some "produce"⟩ 1 none).2) :=
  ⟨by decide,
    claim7_shopping_name_matching.1
      (addToShoppingList ⟨"Tomato", some "produce"⟩ 1 none).2
      ⟨"tomato", some "canned"⟩ 5 (by decide)⟩

/-! ## Nutrition aggregation -/

/-- The four nutrition values the dashboard tracks, after integer rounding. -/
structure NutInfo where
  calories : ℤ
  protein : ℤ
  carbs : ℤ
  fat : ℤ
deriving DecidableEq, Repr

/-- Embeds `extractNutritionFromRecipe`: looks up the four canonical nutrient
names in the recipe's nutrient list, rounding each found amount and
defaulting missing nutrients (or a missing nutrition payload) to 0. -/
def extractNutritionFromRecipe (r : Recipe) : NutInfo :=
  match r.nutrition with
  | none => ⟨0, 0, 0, 0⟩
  | some nutrients =>
      ⟨((nutrients.find? (fun n => n.name == "Calories")).map
          (fun n => jsRound n.amount)).getD 0,
       ((nutrients.find? (fun n => n.name == "Protein")).map
          (fun n => jsRound n.amount)).getD 0,
       ((nutrients.find? (fun n => n.name == "Carbohydrates")).map
          (fun n => jsRound n.amount)).getD 0,
       ((nutrients.find? (fun n => n.name == "Fat")).map
          (fun n => jsRound n.amount)).getD 0⟩

/-- Componentwise accumulation of the four weekly totals (`+=` in source). -/
def addNut (a b : NutInfo) : NutInfo :=
  ⟨a.calories + b.calories, a.protein + b.protein, a.carbs + b.carbs, a.fat + b.fat⟩

/-- One step of the week loop's inner `Object.values(dayMeals).forEach`:
a null slot contributes nothing, a meal contributes its extracted nutrition. -/
def slotStep (acc : NutInfo) (slot : String × Option Recipe) : NutInfo :=
  match slot.2 with
  | none => acc
  | some meal => addNut acc (extractNutritionFromRecipe meal)

/-- One step of the week loop over days: a missing day record contributes
nothing, otherwise the day's slots are accumulated in property order. -/
def dayStep (p : MealPlan) (acc : NutInfo) (day : String) : NutInfo :=
  match lookupKey p day with
  | none => acc
  | some dayMeals => dayMeals.foldl slotStep acc

/-- Embeds `loadWeekNutrition`'s computation: sums extracted nutrition over
all meals of the seven listed days, then divides each total by 7 with
`Math.round` to produce the displayed daily averages. -/
def loadWeekNutrition (st : Option MealPlan) : NutInfo :=
  let totals := canonicalDays.foldl (dayStep (getMealPlan st)) ⟨0, 0, 0, 0⟩
  ⟨jsRound ((totals.calories : ℚ) / 7), jsRound ((totals.protein : ℚ) / 7),
   jsRound ((totals.carbs : ℚ) / 7), jsRound ((totals.fat : ℚ) / 7)⟩

/-- Sum of a list of nutrition records. -/
def sumNut (l : List NutInfo) : NutInfo := l.foldl addNut ⟨0, 0, 0, 0⟩

/-- Extracted nutrition of the non-null slots of one day, in slot order. -/
def mealNutritions (dm : DayMeals) : List NutInfo :=
  dm.filterMap (fun q => q.2.map extractNutritionFromRecipe)

/-- Weekly averages as the spec words them: sum the extracted nutrition over
the enumerated non-null slots of the plan, divide each total by 7 with
integer rounding.  Modelled from the spec's description of weekly
aggregation. -/
def specWeekAverage (st : Option MealPlan) : NutInfo :=
  let t := sumNut ((getAllMealsFromPlan st).map
    (fun m => extractNutritionFromRecipe m.2.2))
  ⟨jsRound ((t.calories : ℚ) / 7), jsRound ((t.protein : ℚ) / 7),
   jsRound ((t.carbs : ℚ) / 7), jsRound ((t.fat : ℚ) / 7)⟩

theorem addNut_zero (a : NutInfo) : addNut a ⟨0, 0, 0, 0⟩ = a := by
  cases a
  simp [addNut]

theorem zero_addNut (a : NutInfo) : addNut ⟨0, 0, 0, 0⟩ a = a := by
  cases a
  simp [addNut]

theorem addNut_assoc (a b c : NutInfo) :
    addNut (addNut a b) c = addNut a (addNut b c) := by
  cases a
  cases b
  cases c
  simp [addNut, Int.add_assoc]

theorem nutFoldl (l : List NutInfo) (a : NutInfo) :
    l.foldl addNut a = addNut a (sumNut l) := by
  induction l generalizing a with
  | nil => simp [sumNut, addNut_zero]
  | cons e t ih =>
    have hc : sumNut (e :: t) = addNut e (sumNut t) := by
      show (e :: t).foldl addNut ⟨0, 0, 0, 0⟩ = _
      rw [List.foldl_cons, ih (addNut ⟨0, 0, 0, 0⟩ e), zero_addNut]
    rw [List.foldl_cons, ih (addNut a e), hc, addNut_assoc]

theorem sumNut_cons (e : NutInfo) (l : List NutInfo) :
    sumNut (e :: l) = addNut e (sumNut l) := by
  show (e :: l).foldl addNut ⟨0, 0, 0, 0⟩ = _
  rw [List.foldl_cons, nutFoldl, zero_addNut]

theorem sumNut_append (a b : List NutInfo) :
    sumNut (a ++ b) = addNut (sumNut a) (sumNut b) := by
  show (a ++ b).foldl addNut ⟨0, 0, 0, 0⟩ = _
  rw [List.foldl_append, nutFoldl]
  rfl

theorem slotFold (dm : DayMeals) (acc : NutInfo) :
    dm.foldl slotStep acc = addNut acc (sumNut (mealNutritions dm)) := by
  induction dm generalizing acc with
  | nil => simp [mealNutritions, sumNut, addNut_zero]
  | cons q t ih =>
    rw [List.foldl_cons]
    cases hq : q.2 with
    | none =>
        rw [show slotStep acc q = acc from by simp [slotStep, hq], ih]
        rw [show mealNutritions (q :: t) = mealNutritions t from by
          simp [mealNutritions, hq]]
    | some meal =>
        rw [show slotStep acc q = addNut acc (extractNutritionFromRecipe meal) from by
            simp [slotStep, hq],
          ih,
          show mealNutritions (q :: t) =
              extractNutritionFromRecipe meal :: mealNutritions t from by
            simp [mealNutritions, hq],
          sumNut_cons, addNut_assoc]

theorem mapExtract_dayTriples (d : String) (dm : DayMeals) :
    (dm.filterMap (fun q => q.2.map (fun r => (d, q.1, r)))).map
        (fun m => extractNutritionFromRecipe m.2.2) = mealNutritions dm := by
  rw [List.map_filterMap]
  unfold mealNutritions
  congr 1
  funext q
  cases q.2 <;> rfl

theorem loadWeek_eq_specAverage (st : Option MealPlan)
    (h : planDays (getMealPlan st) = canonicalDays) :
    loadWeekNutrition st = specWeekAverage st := by
  obtain ⟨d1, d2, d3, d4, d5, d6, d7, hp⟩ := planDays_eq_seven h
  have htot : canonicalDays.foldl (dayStep (getMealPlan st)) ⟨0, 0, 0, 0⟩ =
      sumNut ((getAllMealsFromPlan st).map
        (fun m => extractNutritionFromRecipe m.2.2)) := by
    rw [show getAllMealsFromPlan st = (getMealPlan st).flatMap
        (fun e => e.2.filterMap (fun q => q.2.map (fun r => (e.1, q.1, r))))
      from rfl]
    rw [hp]
    simp only [canonicalDays, List.foldl_cons, List.foldl_nil, dayStep]
    rw [show lookupKey
        [("monday", d1), ("tuesday", d2), ("wednesday", d3), ("thursday", d4),
         ("friday", d5), ("saturday", d6), ("sunday", d7)] "monday" = some d1 from rfl]
    rw [show lookupKey
        [("monday", d1), ("tuesday", d2), ("wednesday", d3), ("thursday", d4),
         ("friday", d5), ("saturday", d6), ("sunday", d7)] "tuesday" = some d2 from rfl]
    rw [show lookupKey
        [("monday", d1), ("tuesday", d2), ("wednesday", d3), ("thursday", d4),
         ("friday", d5), ("saturday", d6), ("sunday", d7)] "wednesday" = some d3 from rfl]
    rw [show lookupKey
        [("monday", d1), ("tuesday", d2), ("wednesday", d3), ("thursday", d4),
         ("friday", d5), ("saturday", d6), ("sunday", d7)] "thursday" = some d4 from rfl]
    rw [show lookupKey
        [("monday", d1), ("tuesday", d2), ("wednesday", d3), ("thursday", d4),
         ("friday", d5), ("saturday", d6), ("sunday", d7)] "friday" = some d5 from rfl]
    rw [show lookupKey
        [("monday", d1), ("tuesday", d2), ("wednesday", d3), ("thursday", d4),
         ("friday", d5), ("saturday", d6), ("sunday", d7)] "saturday" = some d6 from rfl]
    rw [show lookupKey
        [("monday", d1), ("tuesday", d2), ("wednesday", d3), ("thursday", d4),
         ("friday", d5), ("saturday", d6), ("sunday", d7)] "sunday" = some d7 from rfl]
    simp only [List.flatMap_cons, List.flatMap_nil, List.append_nil,
      List.map_append, mapExtract_dayTriples, sumNut_append, slotFold, zero_addNut]
    generalize sumNut (mealNutritions d1) = s1
    generalize sumNut (mealNutritions d2) = s2
    generalize sumNut (mealNutritions d3) = s3
    generalize sumNut (mealNutritions d4) = s4
    generalize sumNut (mealNutritions d5) = s5
    generalize sumNut (mealNutritions d6) = s6
    generalize sumNut (mealNutritions d7) = s7
    cases s1
    cases s2
    cases s3
    cases s4
    cases s5
    cases s6
    cases s7
    simp only [addNut, NutInfo.mk.injEq]
    refine ⟨?_, ?_, ?_, ?_⟩ <;> omega
  unfold loadWeekNutrition specWeekAverage
  rw [htot]

/-- Recipe whose nutrition payload carries 800 calories and no other nutrient. -/
def breakfastRecipe : Recipe := ⟨5, "Big Breakfast", some [⟨"Calories", 800⟩], none⟩

/-- Recipe whose nutrition payload carries 600 calories and no other nutrient. -/
def lunchRecipe : Recipe := ⟨6, "Big Lunch", some [⟨"Calories", 600⟩], none⟩

/-- Store whose plan has meals only on monday, totalling 1400 calories. -/
def mondayStore : Option MealPlan :=
  (addMealToPlan "monday" "lunch" lunchRecipe
    (addMealToPlan "monday" "breakfast" breakfastRecipe none).2).2

/-- C9: the weekly view sums the per-recipe extracted nutrition (rounded
values, missing nutrients 0) over all non-null slots of the seven days and
divides each total by 7 with integer rounding; on a plan where only monday
carries meals totalling 1400 calories the reported average is
round(1400/7) = 200. -/
theorem claim9_week_nutrition_average :
    (∀ st : Option MealPlan, planDays (getMealPlan st) = canonicalDays →
        loadWeekNutrition st = specWeekAverage st) ∧
    loadWeekNutrition mondayStore = ⟨200, 0, 0, 0⟩ := by
  refine ⟨loadWeek_eq_specAverage, ?_⟩
  rw [loadWeek_eq_specAverage mondayStore (by decide)]
  have hmeals : getAllMealsFromPlan mondayStore =
      [("monday", "breakfast", breakfastRecipe),
       ("monday", "lunch", lunchRecipe)] := rfl
  unfold specWeekAverage
  rw [hmeals]
  have he1 : extractNutritionFromRecipe breakfastRecipe = ⟨800, 0, 0, 0⟩ := by
    show (⟨jsRound (800 : ℚ), 0, 0, 0⟩ : NutInfo) = ⟨800, 0, 0, 0⟩
    norm_num [jsRound]
  have he2 : extractNutritionFromRecipe lunchRecipe = ⟨600, 0, 0, 0⟩ := by
    show (⟨jsRound (600 : ℚ), 0, 0, 0⟩ : NutInfo) = ⟨600, 0, 0, 0⟩
    norm_num [jsRound]
  simp only [List.map_cons, List.map_nil, he1, he2, sumNut_cons]
  rw [show sumNut ([] : List NutInfo) = ⟨0, 0, 0, 0⟩ from rfl]
  simp only [addNut_zero, addNut]
  norm_num [jsRound]

/-- Witness for C9: the fresh store's default plan has the canonical day keys,
and the weekly computation agrees with the spec-level aggregation there. -/
theorem claim9_week_nutrition_average_witness :
    planDays (getMealPlan none) = canonicalDays ∧
      loadWeekNutrition none = specWeekAverage none :=
  ⟨by decide, claim9_week_nutrition_average.1 none (by decide)⟩

/-! ## Recent searches -/

/-- Embeds `getRecentSearches`: the stored array, or empty when absent. -/
def getRecentSearches (st : Option (List String)) : List String := st.getD []

/-- Embeds `addRecentSearch(query)`: ignores blank or whitespace-only input,
otherwise removes any entry equal to the query, prepends the query, keeps the
first 10 entries and persists. -/
def addRecentSearch (query : String) (st : Option (List String)) :
    Option (List String) :=
  if trimStr query == "" then st
  else
    some ((query :: (getRecentSearches st).filter (fun s => !(s == query))).take 10)

theorem addRecentSearch_len_le (st : Option (List String)) (q : String)
    (h : (getRecentSearches st).length ≤ 10) :
    (getRecentSearches (addRecentSearch q st)).length ≤ 10 := by
  unfold addRecentSearch
  by_cases hb : (trimStr q == "") = true
  · rw [if_pos hb]
    exact h
  · rw [if_neg hb]
    show ((q :: (getRecentSearches st).filter (fun s => !(s == q))).take 10).length ≤ 10
    rw [List.length_take]
    omega

theorem foldl_addRecentSearch_len (qs : List String) :
    ∀ st : Option (List String), (getRecentSearches st).length ≤ 10 →
      (getRecentSearches (qs.foldl (fun st q => addRecentSearch q st) st)).length ≤ 10 := by
  induction qs with
  | nil => intro st h; exact h
  | cons q t ih =>
    intro st h
    rw [List.foldl_cons]
    exact ih _ (addRecentSearch_len_le st q h)

/-- C10: `addRecentSearch` ignores blank or whitespace-only queries; otherwise
it removes any existing equal entry, prepends the query and truncates to 10
before persisting.  Calling it with "pasta", "soup", "pasta" on a fresh store
yields ["pasta", "soup"], and along every sequence of calls from a fresh
store the stored list never exceeds 10 entries. -/
theorem claim10_addRecentSearch :
    (∀ (st : Option (List String)) (q : String),
        trimStr q = "" → addRecentSearch q st = st) ∧
    (∀ (st : Option (List String)) (q : String),
        trimStr q ≠ "" →
        addRecentSearch q st =
          some ((q :: (getRecentSearches st).filter (fun s => !(s == q))).take 10)) ∧
    addRecentSearch "pasta" (addRecentSearch "soup" (addRecentSearch "pasta" none)) =
      some ["pasta", "soup"] ∧
    (∀ qs : List String,
        (getRecentSearches
          (qs.foldl (fun st q => addRecentSearch q st) none)).length ≤ 10) := by
  refine ⟨?_, ?_, by decide, ?_⟩
  · intro st q h
    simp [addRecentSearch, h]
  · intro st q h
    simp [addRecentSearch, h]
  · intro qs
    exact foldl_addRecentSearch_len qs none (by simp [getRecentSearches])

/-- Witness for C10: the whitespace-only query " " is ignored on the fresh
store, and the non-blank query "pasta" is prepended after filtering. -/
theorem claim10_addRecentSearch_witness :
    (trimStr " " = "" ∧ addRecentSearch " " none = none) ∧
    (trimStr "pasta" ≠ "" ∧
      addRecentSearch "pasta" none =
        some (("pasta" :: (getRecentSearches none).filter
          (fun s => !(s == "pasta"))).take 10)) :=
  ⟨⟨by decide, claim10_addRecentSearch.1 none " " (by decide)⟩,
    ⟨by decide, claim10_addRecentSearch.2.1 none "pasta" (by decide)⟩⟩

end MealPlannerVerif
